import Mathlib

/-!
Verification of the dogdish update dispatcher (`dogdish/dispatcher.py`).

The Python source is shallowly embedded: filenames and strings become
`List Char`, file bytes become `List Nat`, the filesystem becomes an
explicit record passed to every operation, and Python exceptions become
`Except`.  The SHA-512 digest provided by the external `hashlib` library
is abstracted as a function argument `digest : List Nat → List Nat`
producing the raw digest bytes; the code's `hexdigest()` is embedded as a
real hex encoder applied to those bytes.
-/

set_option maxRecDepth 20000

namespace Dogdish

/-! ## Naming convention (class `Update` constants and `Update.updates` filter) -/

/-- `Update.prefix = 'b2g_update_'` from the source. -/
def marPfx : List Char := "b2g_update_".toList

/-- `Update.suffix = '.mar'` from the source. -/
def marSfx : List Char := ".mar".toList

/-- The filter in `Update.updates`:
`i.startswith(cls.prefix) and i.endswith(cls.suffix)`. -/
def matchesConvention (n : List Char) : Bool :=
  marPfx.isPrefixOf n && marSfx.isSuffixOf n

/-- `self.stamp = filename[len(self.prefix):-len(self.suffix)]` from
`Update.__init__`: the Python slice from `len(prefix)` to
`len(filename) - len(suffix)` (empty when the bounds cross). -/
def versionStamp (n : List Char) : List Char :=
  (n.drop marPfx.length).take (n.length - marSfx.length - marPfx.length)

/-! ## Filesystem model -/

/-- The `App` section contents of an `application_<stamp>.ini` file, as far
as `Application.__init__` reads it: the `BuildID` and `Version` keys, each
possibly absent (absent section or key makes `ConfigParser.get` raise). -/
structure IniRec where
  name : List Char
  buildIdOpt : Option (List Char)
  versionOpt : Option (List Char)
deriving Repr, DecidableEq

/-- One file in the watched directory that the scanner may pick up:
its name, `os.path.getmtime`, `os.path.getsize` and content bytes. -/
structure MarFile where
  name : List Char
  mtime : Nat
  size : Nat
  content : List Nat
deriving Repr, DecidableEq

/-- The watched directory: candidate update files and `.ini` companions. -/
structure FSys where
  mars : List MarFile
  inis : List IniRec
deriving Repr, DecidableEq

def lookupMar (fs : FSys) (n : List Char) : Option MarFile :=
  fs.mars.find? (fun m => m.name == n)

def lookupIni (fs : FSys) (n : List Char) : Option IniRec :=
  fs.inis.find? (fun i => i.name == n)

/-! ## `Application` -/

/-- Parsed `application.ini` data (`Application` in the source). -/
structure Application where
  build_id : List Char
  version : List Char
deriving Repr, DecidableEq

inductive Err where
  | missingIni
  | badIni
  | marMissing
  | noCurrent
deriving Repr, DecidableEq

/-- `Application.__init__`: `config.get('App', 'BuildID')` and
`config.get('App', 'Version')`; either key being absent raises. -/
def Application.ofIni (rec : IniRec) : Except Err Application :=
  match rec.buildIdOpt, rec.versionOpt with
  | some b, some v => .ok ⟨b, v⟩
  | _, _ => .error .badIni

/-! ## `Update` objects -/

/-- The in-memory `Update` object: filename-derived fields plus the two
lazily filled caches `_application` and `_hash`.  (The single watched
directory is left implicit.) -/
structure Update where
  filename : List Char
  stamp : List Char
  modifiedTime : Nat
  size : Nat
  appCache : Option Application
  hashCache : Option (List Char)
deriving Repr, DecidableEq

/-- `Update.__init__`: fields read from the filesystem at construction,
both caches empty (`self._application = None`, `self._hash = None`). -/
def Update.ofMar (m : MarFile) : Update :=
  { filename := m.name
    stamp := versionStamp m.name
    modifiedTime := m.mtime
    size := m.size
    appCache := none
    hashCache := none }

/-- `'application_%s.ini' % self.stamp` from `Update.application`. -/
def iniName (stamp : List Char) : List Char :=
  "application_".toList ++ stamp ++ ".ini".toList

/-- `Update.application`: on a cache miss, assert the companion `.ini`
exists (AssertionError otherwise) and parse it; the parsed object is
cached.  Returns the possibly updated object alongside the result. -/
def Update.application (fs : FSys) (u : Update) :
    Except Err (Application × Update) :=
  match u.appCache with
  | some a => .ok (a, u)
  | none =>
    match lookupIni fs (iniName u.stamp) with
    | none => .error .missingIni
    | some rec =>
      match Application.ofIni rec with
      | .error e => .error e
      | .ok a => .ok (a, { u with appCache := some a })

/-- Python truthiness of the `_hash` slot: `if not self._hash:` fires on
`None` and on the empty string. -/
def optStrFalsy : Option (List Char) → Bool
  | none => true
  | some s => s.isEmpty

/-- Lowercase hex alphabet used by `hexdigest()`. -/
def hexDigits : List Char := "0123456789abcdef".toList

/-- Two lowercase hex characters for one byte. -/
def hexByte (b : Nat) : List Char :=
  [hexDigits.getD (b / 16 % 16) '0', hexDigits.getD (b % 16) '0']

/-- `hexdigest()`: hex encoding of the digest bytes. -/
def hexEncode (bs : List Nat) : List Char :=
  (bs.map hexByte).flatten

/-- `Update.hash`: on a falsy cache, open the file (IOError when it is
gone), hash its full content and cache the hex string.  The `Nat` in the
result counts how many times the underlying file was read by this call. -/
def Update.hash (fs : FSys) (digest : List Nat → List Nat) (u : Update) :
    Except Err (List Char × Update × Nat) :=
  if optStrFalsy u.hashCache then
    match lookupMar fs u.filename with
    | none => .error .marMissing
    | some m =>
      let h := hexEncode (digest m.content)
      .ok (h, { u with hashCache := some h }, 1)
  else
    .ok (u.hashCache.getD [], u, 0)

/-! ## The `Dispatcher` registry state and `scan` -/

/-- The mutable part of a `Dispatcher`: the filename-keyed cache
`self.updates` (kept as a list with at most one entry per filename) and
`self.current_update`. -/
structure DState where
  updates : List Update
  currentUpdate : Option Update
deriving Repr, DecidableEq

/-- `self.updates[update] = ...`: replace any previous entry with the same
filename by the freshly constructed object. -/
def cacheInsert (c : List Update) (u : Update) : List Update :=
  u :: c.filter (fun x => x.filename != u.filename)

/-- One iteration of the `for update in contents:` loop of
`Dispatcher.scan`: rebuild the cache entry, then bump `current_update`
only on a strictly greater `modifiedTime` (or when it was `None`). -/
def scanStep (st : DState) (m : MarFile) : DState :=
  let u := Update.ofMar m
  let c := cacheInsert st.updates u
  match st.currentUpdate with
  | some cur =>
    if u.modifiedTime > cur.modifiedTime then ⟨c, some u⟩ else ⟨c, some cur⟩
  | none => ⟨c, some u⟩

/-- `Update.updates(directory)`: the directory entries passing the naming
filter.  The list order stands for the (unspecified) iteration order of
the Python set of names. -/
def marListing (fs : FSys) : List MarFile :=
  fs.mars.filter (fun m => matchesConvention m.name)

/-- `Dispatcher.scan`: fold the loop body over the matching files. -/
def scan (fs : FSys) (st : DState) : DState :=
  (marListing fs).foldl scanStep st

/-- `Dispatcher.__init__` (cache part): start from an empty cache and a
`None` current update, scan once, and fail
(`assert self.current_update, "No updates found ..."`) when no update was
found. -/
def initDispatcher (fs : FSys) : Except String DState :=
  let st := scan fs ⟨[], none⟩
  match st.currentUpdate with
  | none => .error "No updates found"
  | some _ => .ok st

/-! ## Request handling (`Get` and `Dispatcher.__call__`) -/

/-- An inbound HTTP request, reduced to the parts the code reads: the
method, the path (which the code never consults) and the optional
`dogfood_id` query parameter. -/
structure Request where
  method : List Char
  path : List Char
  dogfoodId : Option (List Char)
deriving Repr, DecidableEq

/-- `Get.match(request)`: `request.method == 'GET'` — nothing else. -/
def getMatch (r : Request) : Bool :=
  r.method == "GET".toList

/-- `'&amp;'.join(['%s=%s' % (key, value) ...])` over the query items. -/
def joinQuery : List (List Char × List Char) → List Char
  | [] => []
  | [(k, v)] => k ++ '=' :: v
  | (k, v) :: kv :: rest => k ++ '=' :: v ++ "&amp;".toList ++ joinQuery (kv :: rest)

/-- The URL spliced into the template:
`http://update.boot2gecko.org/%(path)s/%(update)s%(query)s`. -/
def patchURL (p upd query : List Char) : List Char :=
  "http://update.boot2gecko.org/".toList ++ p ++ '/' :: upd ++ query

/-- The response-body template of `Get.body` with the `%(...)s` holes
filled in. -/
def manifestBody (version build_id p upd query hashv sizeStr : List Char) :
    List Char :=
  "<?xml version=\"1.0\"?>\n<updates>\n  <update type=\"minor\" appVersion=\"".toList ++
  version ++ "\" version=\"".toList ++ version ++
  "\" extensionVersion=\"".toList ++ version ++
  "\" buildID=\"".toList ++ build_id ++
  "\" licenseURL=\"http://www.mozilla.com/test/sample-eula.html\" detailsURL=\"http://www.mozilla.com/test/sample-details.html\">\n    <patch type=\"complete\" URL=\"".toList ++
  patchURL p upd query ++
  "\" hashFunction=\"SHA512\" hashValue=\"".toList ++ hashv ++
  "\" size=\"".toList ++ sizeStr ++
  "\"/>\n  </update>\n</updates>".toList

/-- `Get.__call__`: assemble the query dict (`dogfooding_prerelease_id`
first when a truthy `dogfood_id` is given, then always `build_id` and
`version`; Python 2 dict iteration order is implementation-defined, the
embedding fixes insertion order), resolve the current update's
application data and hash, and fill the template.  Returns the body and
the current-update object with its caches now populated. -/
def getCall (fs : FSys) (digest : List Nat → List Nat) (appPath : List Char)
    (cur : Update) (r : Request) : Except Err (List Char × Update) :=
  let q0 : List (List Char × List Char) :=
    match r.dogfoodId with
    | some v => if v.isEmpty then [] else [("dogfooding_prerelease_id".toList, v)]
    | none => []
  match Update.application fs cur with
  | .error e => .error e
  | .ok (a, cur1) =>
    let q1 := q0 ++ [("build_id".toList, a.build_id), ("version".toList, a.version)]
    let query : List Char := if q1.isEmpty then [] else '?' :: joinQuery q1
    match Update.hash fs digest cur1 with
    | .error e => .error e
    | .ok (hashv, cur2, _) =>
      .ok (manifestBody a.version a.build_id appPath cur2.filename query hashv
            (Nat.repr cur2.size).toList, cur2)

inductive HttpResponse where
  | manifest (body : List Char)
  | notFound
deriving Repr, DecidableEq

/-- `Dispatcher.__call__`: rescan, then try the single registered handler
(`Get`); when it matches, run it (errors it raises propagate), otherwise
answer `404 Not Found`. -/
def dispatcherCall (fs : FSys) (digest : List Nat → List Nat)
    (appPath : List Char) (st : DState) (r : Request) :
    Except Err (DState × HttpResponse) :=
  if getMatch r then
    match (scan fs st).currentUpdate with
    | none => .error .noCurrent
    | some cur =>
      match getCall fs digest appPath cur r with
      | .error e => .error e
      | .ok (body, cur2) =>
        .ok ({ scan fs st with currentUpdate := some cur2 }, .manifest body)
  else
    .ok (scan fs st, .notFound)

/-- The invariant relating `current_update` to the cache: it is set as
soon as the cache is non-empty, agrees with a cache entry on filename and
modification time, and its modification time is maximal over the cache. -/
def goodState (st : DState) : Prop :=
  match st.currentUpdate with
  | none => st.updates = []
  | some cur =>
    (∃ e ∈ st.updates, e.filename = cur.filename ∧ e.modifiedTime = cur.modifiedTime) ∧
    ∀ e ∈ st.updates, e.modifiedTime ≤ cur.modifiedTime

/-! ## Concrete inputs used by counterexamples and witnesses -/

/-- A stand-in for the external SHA-512 digest: any function producing 64
bytes is admissible in the theorems; this one is used for concrete
evaluation. -/
def digest0 : List Nat → List Nat := fun _ => List.replicate 64 0

def marTie1 : MarFile := ⟨"b2g_update_1.mar".toList, 5, 10, []⟩

def marTie2 : MarFile := ⟨"b2g_update_2.mar".toList, 5, 10, []⟩

def fsTie : FSys := ⟨[marTie1, marTie2], []⟩

/-! ## End-to-end scenario: `b2g_update_20130101000000.mar` (100 bytes)
with companion `application_20130101000000.ini`. -/

def marName : List Char := "b2g_update_20130101000000.mar".toList

def iniScen : IniRec :=
  ⟨"application_20130101000000.ini".toList,
    some "20130101000000".toList, some "1.0".toList⟩

def marScen (c : List Nat) : MarFile := ⟨marName, 1, 100, c⟩

def fsScen (c : List Nat) : FSys := ⟨[marScen c], [iniScen]⟩

/-- The dispatcher state right after construction over the scenario
directory. -/
def stScen (c : List Nat) : DState := scan (fsScen c) ⟨[], none⟩

def reqPlain : Request := ⟨"GET".toList, "/".toList, none⟩

/-- The query string the code generates when no `dogfood_id` is given:
`build_id` and `version` are always appended. -/
def scen1Query : List Char := "?build_id=20130101000000&amp;version=1.0".toList

def urlBase : List Char := "http://update.boot2gecko.org/".toList

/-- The scenario's parsed companion metadata. -/
def appScen : Application := ⟨"20130101000000".toList, "1.0".toList⟩

/-- The scenario's current update after its metadata cache fills. -/
def curA (c : List Nat) : Update :=
  { Update.ofMar (marScen c) with appCache := some appScen }

/-- The scenario's current update after both caches fill. -/
def curB (c : List Nat) (digest : List Nat → List Nat) : Update :=
  { curA c with hashCache := some (hexEncode (digest c)) }

/-! ## Helper lemmas -/

theorem isPrefixOf_exists : ∀ {l₁ l₂ : List Char},
    l₁.isPrefixOf l₂ = true → ∃ t, l₁ ++ t = l₂
  | [], l₂, _ => ⟨l₂, rfl⟩
  | _ :: _, [], h => by simp [List.isPrefixOf] at h
  | a :: as, b :: bs, h => by
    simp only [List.isPrefixOf, Bool.and_eq_true, beq_iff_eq] at h
    obtain ⟨t, ht⟩ := isPrefixOf_exists h.2
    exact ⟨t, by rw [List.cons_append, ht, h.1]⟩

theorem isSuffixOf_exists {l₁ l₂ : List Char}
    (h : l₁.isSuffixOf l₂ = true) : ∃ t, t ++ l₁ = l₂ := by
  simp only [List.isSuffixOf] at h
  obtain ⟨t, ht⟩ := isPrefixOf_exists h
  refine ⟨t.reverse, ?_⟩
  have := congrArg List.reverse ht
  simpa using this

/-- The shape of the cache after one loop iteration. -/
theorem scanStep_updates (st : DState) (m : MarFile) :
    (scanStep st m).updates = cacheInsert st.updates (Update.ofMar m) := by
  unfold scanStep
  cases st.currentUpdate with
  | none => rfl
  | some cur => dsimp only; split <;> rfl

/-- `scan` leaves `current_update` set after every iteration. -/
theorem scanStep_isSome (st : DState) (m : MarFile) :
    (scanStep st m).currentUpdate.isSome = true := by
  unfold scanStep
  cases st.currentUpdate with
  | none => rfl
  | some cur => dsimp only; split <;> rfl

theorem scanList_isSome : ∀ (l : List MarFile) (st : DState),
    (st.currentUpdate.isSome = true ∨ l ≠ []) →
    ((l.foldl scanStep st).currentUpdate.isSome = true)
  | [], st, h => by
    rcases h with h | h
    · exact h
    · exact absurd rfl h
  | m :: rest, st, _ => by
    rw [List.foldl_cons]
    exact scanList_isSome rest (scanStep st m) (Or.inl (scanStep_isSome st m))

/-- An incumbent current update at least as fresh as everything listed is
kept: ties are broken in favour of the already-current entry. -/
theorem scanList_incumbent : ∀ (l : List MarFile) (st : DState) (cur0 : Update),
    st.currentUpdate = some cur0 →
    (∀ m ∈ l, m.mtime ≤ cur0.modifiedTime) →
    (l.foldl scanStep st).currentUpdate = some cur0
  | [], _, _, h, _ => h
  | m :: rest, st, cur0, h, hle => by
    rw [List.foldl_cons]
    have hstep : (scanStep st m).currentUpdate = some cur0 := by
      unfold scanStep
      rw [h]
      dsimp only
      have : ¬ (Update.ofMar m).modifiedTime > cur0.modifiedTime := by
        have := hle m (List.mem_cons_self m rest)
        simp [Update.ofMar]
        omega
      simp [this]
    exact scanList_incumbent rest (scanStep st m) cur0 hstep
      (fun m' hm' => hle m' (List.mem_cons_of_mem m hm'))

/-- Cached filenames are never dropped by a loop iteration. -/
theorem scanList_names : ∀ (l : List MarFile) (st : DState) (f : List Char),
    f ∈ st.updates.map Update.filename →
    f ∈ (l.foldl scanStep st).updates.map Update.filename
  | [], _, _, h => h
  | m :: rest, st, f, h => by
    rw [List.foldl_cons]
    refine scanList_names rest (scanStep st m) f ?_
    rw [scanStep_updates]
    unfold cacheInsert
    rcases List.mem_map.mp h with ⟨e, he, hef⟩
    by_cases hf : e.filename = (Update.ofMar m).filename
    · exact List.mem_map.mpr ⟨Update.ofMar m, List.mem_cons_self _ _, by rw [← hf, hef]⟩
    · refine List.mem_map.mpr ⟨e, List.mem_cons_of_mem _ ?_, hef⟩
      exact List.mem_filter.mpr ⟨he, by simpa using hf⟩

theorem scanStep_good (st : DState) (m : MarFile)
    (hg : goodState st)
    (hm : ∀ e ∈ st.updates, e.filename = m.name → e.modifiedTime ≤ m.mtime) :
    goodState (scanStep st m) := by
  obtain ⟨c, cu⟩ := st
  cases cu with
  | none =>
    have hc : c = [] := hg
    subst hc
    exact ⟨⟨Update.ofMar m, List.mem_cons_self _ _, rfl, rfl⟩, by
      intro e he
      simp [scanStep, cacheInsert] at he
      simp [he]⟩
  | some cur =>
    obtain ⟨⟨e0, he0, he0f, he0t⟩, hmax⟩ := hg
    unfold scanStep
    dsimp only
    by_cases hgt : (Update.ofMar m).modifiedTime > cur.modifiedTime
    · simp only [hgt, if_pos]
      refine ⟨⟨Update.ofMar m, List.mem_cons_self _ _, rfl, rfl⟩, ?_⟩
      intro e he
      rcases List.mem_cons.mp he with rfl | he
      · exact le_refl _
      · exact le_of_lt (lt_of_le_of_lt (hmax e (List.mem_of_mem_filter he)) hgt)
    · simp only [hgt, if_neg, not_false_eq_true]
      have hmle : m.mtime ≤ cur.modifiedTime := by
        simp [Update.ofMar] at hgt; omega
      constructor
      · by_cases hf : e0.filename = m.name
        · refine ⟨Update.ofMar m, List.mem_cons_self _ _, ?_, ?_⟩
          · rw [← he0f, hf]; rfl
          · have h1 : e0.modifiedTime ≤ m.mtime := hm e0 he0 hf
            have h2 : (Update.ofMar m).modifiedTime = m.mtime := rfl
            rw [h2, ← he0t]
            omega
        · refine ⟨e0, List.mem_cons_of_mem _ ?_, he0f, he0t⟩
          exact List.mem_filter.mpr ⟨he0, by simpa using hf⟩
      · intro e he
        rcases List.mem_cons.mp he with rfl | he
        · exact hmle
        · exact hmax e (List.mem_of_mem_filter he)

theorem scanList_good : ∀ (l : List MarFile) (st : DState),
    goodState st →
    (l.map MarFile.name).Nodup →
    (∀ m ∈ l, ∀ e ∈ st.updates, e.filename = m.name → e.modifiedTime ≤ m.mtime) →
    goodState (l.foldl scanStep st)
  | [], _, hg, _, _ => hg
  | m :: rest, st, hg, hnd, hm => by
    rw [List.foldl_cons]
    have hnd' := (List.nodup_cons.mp hnd)
    refine scanList_good rest (scanStep st m) ?_ hnd'.2 ?_
    · exact scanStep_good st m hg (hm m (List.mem_cons_self m rest))
    · intro m2 hm2 e he hef
      rw [scanStep_updates] at he
      rcases List.mem_cons.mp he with rfl | he
      · exfalso
        have hnm : m2.name ≠ m.name := by
          intro heq
          exact hnd'.1 (heq ▸ List.mem_map.mpr ⟨m2, hm2, rfl⟩)
        exact hnm hef.symm
      · exact hm m2 (List.mem_cons_of_mem m hm2) e (List.mem_of_mem_filter he) hef

theorem goodState_some {st : DState} {cur : Update} (hg : goodState st)
    (hc : st.currentUpdate = some cur) :
    (∃ e ∈ st.updates, e.filename = cur.filename ∧ e.modifiedTime = cur.modifiedTime) ∧
    ∀ e ∈ st.updates, e.modifiedTime ≤ cur.modifiedTime := by
  unfold goodState at hg
  rw [hc] at hg
  exact hg

/-- Splitting an accepted filename at the fixed, non-overlapping markers. -/
theorem accepted_shape (f : List Char)
    (h1 : marPfx.isPrefixOf f = true) (h2 : marSfx.isSuffixOf f = true) :
    ∃ mid, f = marPfx ++ mid ++ marSfx := by
  obtain ⟨r, hr⟩ := isPrefixOf_exists h1
  obtain ⟨t, ht⟩ := isSuffixOf_exists h2
  have heq : marPfx ++ r = t ++ marSfx := by rw [hr, ht]
  rcases List.append_eq_append_iff.mp heq with ⟨a', ha1, ha2⟩ | ⟨c', hc1, hc2⟩
  · exact ⟨a', by rw [← hr, ha2, ← List.append_assoc]⟩
  · cases c' with
    | nil =>
      have ht' : t = marPfx := by simpa using hc1.symm
      refine ⟨[], ?_⟩
      rw [← ht, ht']
      simp
    | cons x xs =>
      exfalso
      have hS : marSfx = '.' :: ['m', 'a', 'r'] := by decide
      rw [hS] at hc2
      injection hc2 with hx _
      have hmem : x ∈ marPfx := by
        rw [hc1]; exact List.mem_append_right t (List.mem_cons_self x xs)
      rw [← hx] at hmem
      exact absurd hmem (by decide)

theorem versionStamp_shape (mid : List Char) :
    versionStamp (marPfx ++ mid ++ marSfx) = mid := by
  unfold versionStamp
  have h1 : marPfx.length = 11 := rfl
  have h2 : marSfx.length = 4 := rfl
  have hlen : (marPfx ++ mid ++ marSfx).length - marSfx.length - marPfx.length =
      mid.length := by
    simp [List.length_append, h1, h2]
    omega
  rw [hlen, List.append_assoc, List.drop_left]
  exact List.take_left mid marSfx

/-! ## Claim theorems -/

/-- C5: for every filename accepted by the registry's filter (starts with
the fixed `b2g_update_`, ends with the fixed `.mar`), the derived
`versionStamp` round-trips: `marPfx ++ versionStamp filename ++ marSfx`
reassembles the filename. -/
theorem versionStamp_roundtrip (f : List Char)
    (h1 : marPfx.isPrefixOf f = true) (h2 : marSfx.isSuffixOf f = true) :
    marPfx ++ versionStamp f ++ marSfx = f := by
  obtain ⟨mid, hmid⟩ := accepted_shape f h1 h2
  rw [hmid, versionStamp_shape]

theorem versionStamp_roundtrip_witness :
    marPfx.isPrefixOf "b2g_update_20130101000000.mar".toList = true ∧
    marSfx.isSuffixOf "b2g_update_20130101000000.mar".toList = true ∧
    marPfx ++ versionStamp "b2g_update_20130101000000.mar".toList ++ marSfx =
      "b2g_update_20130101000000.mar".toList :=
  ⟨by decide, by decide, versionStamp_roundtrip _ (by decide) (by decide)⟩

/-- C7: when no directory entry matches the naming convention, startup
construction fails with the "no updates found" error instead of producing
a serving state. -/
theorem init_fails_without_updates (fs : FSys)
    (h : ∀ m ∈ fs.mars, matchesConvention m.name = false) :
    initDispatcher fs = .error "No updates found" := by
  have hl : marListing fs = [] := by
    unfold marListing
    exact List.filter_eq_nil_iff.mpr (by intro m hm; simp [h m hm])
  simp [initDispatcher, scan, hl]

theorem init_fails_without_updates_witness :
    (∀ m ∈ (FSys.mk [⟨"readme.txt".toList, 0, 0, []⟩] []).mars,
      matchesConvention m.name = false) ∧
    initDispatcher (FSys.mk [⟨"readme.txt".toList, 0, 0, []⟩] []) =
      .error "No updates found" :=
  ⟨by decide, init_fails_without_updates _ (by decide)⟩

/-- C9: `scan` never removes cached filenames — every filename cached
before a scan is still cached after it, whatever the directory now
contains (in particular when the backing file was deleted). -/
theorem scan_cache_monotone (fs : FSys) (st : DState) (f : List Char)
    (h : f ∈ st.updates.map Update.filename) :
    f ∈ (scan fs st).updates.map Update.filename :=
  scanList_names (marListing fs) st f h

theorem scan_cache_monotone_witness :
    "b2g_update_1.mar".toList ∈
      (DState.mk [Update.ofMar ⟨"b2g_update_1.mar".toList, 5, 10, []⟩]
        (some (Update.ofMar ⟨"b2g_update_1.mar".toList, 5, 10, []⟩))).updates.map
        Update.filename ∧
    "b2g_update_1.mar".toList ∈
      (scan (FSys.mk [] [])
        (DState.mk [Update.ofMar ⟨"b2g_update_1.mar".toList, 5, 10, []⟩]
          (some (Update.ofMar ⟨"b2g_update_1.mar".toList, 5, 10, []⟩)))).updates.map
        Update.filename :=
  ⟨by decide, scan_cache_monotone _ _ _ (by decide)⟩

/-- C10: once `current_update` is set it never becomes `None` again: after
any later scan — including over a directory with no matching files — some
update is still current. -/
theorem current_stays_set (fs : FSys) (st : DState)
    (h : st.currentUpdate.isSome = true) :
    (scan fs st).currentUpdate.isSome = true :=
  scanList_isSome (marListing fs) st (Or.inl h)

theorem current_stays_set_witness :
    (DState.mk [] (some (Update.ofMar ⟨"b2g_update_1.mar".toList, 5, 10, []⟩))).currentUpdate.isSome = true ∧
    (scan (FSys.mk [] [])
      (DState.mk [] (some (Update.ofMar ⟨"b2g_update_1.mar".toList, 5, 10, []⟩)))).currentUpdate.isSome = true :=
  ⟨by decide, current_stays_set _ _ (by decide)⟩

/-- C1 counterexample: scanning a fresh registry over two files sharing
the maximal modification time leaves the *first*-observed file current,
not the most recently observed one — `marTie2` is observed after
`marTie1` (it is later in the scan order) and has the same maximal
`modifiedTime`, yet `current` is `marTie1`'s entry. -/
theorem scan_tie_first_observed_wins :
    marListing fsTie = [marTie1, marTie2] ∧
    marTie1.mtime = marTie2.mtime ∧
    Update.ofMar marTie1 ≠ Update.ofMar marTie2 ∧
    (scan fsTie ⟨[], none⟩).currentUpdate = some (Update.ofMar marTie1) ∧
    Update.ofMar marTie2 ∈ (scan fsTie ⟨[], none⟩).updates := by
  refine ⟨by decide, rfl, by decide, by decide, by decide⟩

/-- C1 (amended): after a scan from a consistent state, provided no listed
file's modification time has moved backwards relative to its cached entry,
`current` is non-null, agrees with a cache entry on filename and
`modifiedTime`, and its `modifiedTime` is maximal over the full cache;
ties are broken in favour of the earliest-observed (incumbent) entry: an
already-current update whose time is still ≥ everything listed stays
current. -/
theorem scan_current_max (fs : FSys) (st : DState)
    (hg : goodState st)
    (hnd : ((marListing fs).map MarFile.name).Nodup)
    (hmono : ∀ m ∈ marListing fs, ∀ e ∈ st.updates,
      e.filename = m.name → e.modifiedTime ≤ m.mtime)
    (hne : marListing fs ≠ []) :
    (∃ cur, (scan fs st).currentUpdate = some cur ∧
      (∃ e ∈ (scan fs st).updates,
        e.filename = cur.filename ∧ e.modifiedTime = cur.modifiedTime) ∧
      ∀ e ∈ (scan fs st).updates, e.modifiedTime ≤ cur.modifiedTime) ∧
    ∀ cur0, st.currentUpdate = some cur0 →
      (∀ m ∈ marListing fs, m.mtime ≤ cur0.modifiedTime) →
      (scan fs st).currentUpdate = some cur0 := by
  constructor
  · have hgood := scanList_good (marListing fs) st hg hnd hmono
    have hsome := scanList_isSome (marListing fs) st (Or.inr hne)
    obtain ⟨cur, hcur⟩ := Option.isSome_iff_exists.mp hsome
    exact ⟨cur, hcur, goodState_some hgood hcur⟩
  · intro cur0 h0 hle
    exact scanList_incumbent (marListing fs) st cur0 h0 hle

theorem scan_current_max_witness :
    goodState ⟨[], none⟩ ∧
    ((marListing fsTie).map MarFile.name).Nodup ∧
    (∀ m ∈ marListing fsTie, ∀ e ∈ (DState.mk [] none).updates,
      e.filename = m.name → e.modifiedTime ≤ m.mtime) ∧
    marListing fsTie ≠ [] ∧
    ((∃ cur, (scan fsTie ⟨[], none⟩).currentUpdate = some cur ∧
      (∃ e ∈ (scan fsTie ⟨[], none⟩).updates,
        e.filename = cur.filename ∧ e.modifiedTime = cur.modifiedTime) ∧
      ∀ e ∈ (scan fsTie ⟨[], none⟩).updates, e.modifiedTime ≤ cur.modifiedTime) ∧
    ∀ cur0, (DState.mk [] none).currentUpdate = some cur0 →
      (∀ m ∈ marListing fsTie, m.mtime ≤ cur0.modifiedTime) →
      (scan fsTie ⟨[], none⟩).currentUpdate = some cur0) :=
  ⟨rfl, by decide, by simp, by decide,
    scan_current_max fsTie ⟨[], none⟩ rfl (by decide) (by simp) (by decide)⟩

theorem hexEncode_length (bs : List Nat) : (hexEncode bs).length = 2 * bs.length := by
  induction bs with
  | nil => rfl
  | cons b t ih =>
    have hc : hexEncode (b :: t) = hexByte b ++ hexEncode t := by
      simp [hexEncode]
    rw [hc, List.length_append, ih]
    simp [hexByte]
    omega

theorem hexDigits_getD_mem (n : Nat) : hexDigits.getD n '0' ∈ hexDigits := by
  rw [List.getD_eq_getElem?_getD]
  cases hx : hexDigits[n]? with
  | none => simp; decide
  | some c => simpa using List.getElem?_mem hx

theorem hexEncode_mem (bs : List Nat) : ∀ ch ∈ hexEncode bs, ch ∈ hexDigits := by
  induction bs with
  | nil => intro ch h; simp [hexEncode] at h
  | cons b t ih =>
    intro ch h
    simp only [hexEncode, List.map_cons, List.flatten_cons, List.mem_append] at h
    rcases h with h | h
    · simp only [hexByte, List.mem_cons] at h
      rcases h with rfl | rfl | h
      · exact hexDigits_getD_mem _
      · exact hexDigits_getD_mem _
      · simp at h
    · exact ih ch h

theorem hexEncode_isEmpty_false {bs : List Nat} (h : bs ≠ []) :
    (hexEncode bs).isEmpty = false := by
  cases bs with
  | nil => exact absurd rfl h
  | cons b t => rfl

/-- C4: on an `Update` object with an empty hash cache whose backing file
is readable, `hash()` returns the hex-encoded digest of the file's full
content, reading the file exactly once; calling `hash()` again on the
resulting object returns the identical string without reading the file
again. -/
theorem hash_lazy_cached (fs : FSys) (digest : List Nat → List Nat)
    (u : Update) (m : MarFile)
    (hc : u.hashCache = none)
    (hm : lookupMar fs u.filename = some m)
    (hd : digest m.content ≠ []) :
    Update.hash fs digest u =
      .ok (hexEncode (digest m.content),
        { u with hashCache := some (hexEncode (digest m.content)) }, 1) ∧
    Update.hash fs digest { u with hashCache := some (hexEncode (digest m.content)) } =
      .ok (hexEncode (digest m.content),
        { u with hashCache := some (hexEncode (digest m.content)) }, 0) := by
  constructor
  · unfold Update.hash
    rw [hc]
    simp only [optStrFalsy, if_true]
    rw [hm]
  · unfold Update.hash
    have hne : (hexEncode (digest m.content)).isEmpty = false := hexEncode_isEmpty_false hd
    simp [optStrFalsy, hne]

theorem hash_lazy_cached_witness :
    (Update.ofMar ⟨"b2g_update_1.mar".toList, 5, 10, [1, 2]⟩).hashCache = none ∧
    lookupMar (FSys.mk [⟨"b2g_update_1.mar".toList, 5, 10, [1, 2]⟩] [])
      (Update.ofMar ⟨"b2g_update_1.mar".toList, 5, 10, [1, 2]⟩).filename =
      some (MarFile.mk "b2g_update_1.mar".toList 5 10 [1, 2]) ∧
    digest0 (MarFile.mk "b2g_update_1.mar".toList 5 10 [1, 2]).content ≠ [] ∧
    (Update.hash (FSys.mk [⟨"b2g_update_1.mar".toList, 5, 10, [1, 2]⟩] []) digest0
        (Update.ofMar ⟨"b2g_update_1.mar".toList, 5, 10, [1, 2]⟩) =
      .ok (hexEncode (digest0 [1, 2]),
        { Update.ofMar ⟨"b2g_update_1.mar".toList, 5, 10, [1, 2]⟩ with
            hashCache := some (hexEncode (digest0 [1, 2])) }, 1) ∧
    Update.hash (FSys.mk [⟨"b2g_update_1.mar".toList, 5, 10, [1, 2]⟩] []) digest0
        { Update.ofMar ⟨"b2g_update_1.mar".toList, 5, 10, [1, 2]⟩ with
            hashCache := some (hexEncode (digest0 [1, 2])) } =
      .ok (hexEncode (digest0 [1, 2]),
        { Update.ofMar ⟨"b2g_update_1.mar".toList, 5, 10, [1, 2]⟩ with
            hashCache := some (hexEncode (digest0 [1, 2])) }, 0)) :=
  ⟨rfl, by decide, by decide,
    hash_lazy_cached (FSys.mk [⟨"b2g_update_1.mar".toList, 5, 10, [1, 2]⟩] []) digest0
      (Update.ofMar ⟨"b2g_update_1.mar".toList, 5, 10, [1, 2]⟩)
      (MarFile.mk "b2g_update_1.mar".toList 5 10 [1, 2])
      rfl (by decide) (by decide)⟩

/-- C8: when the update selected as current after the rescan still has an
empty metadata cache and its companion `.ini` file is missing or lacks the
required keys, a GET request fails with a propagated error — no response
document is produced and no default metadata is substituted. -/
theorem missing_metadata_propagates (fs : FSys) (digest : List Nat → List Nat)
    (appPath : List Char) (st : DState) (r : Request) (u : Update)
    (hget : getMatch r = true)
    (hcur : (scan fs st).currentUpdate = some u)
    (hcache : u.appCache = none)
    (hini : lookupIni fs (iniName u.stamp) = none ∨
      ∃ rec, lookupIni fs (iniName u.stamp) = some rec ∧
        Application.ofIni rec = .error Err.badIni) :
    ∃ e, dispatcherCall fs digest appPath st r = .error e := by
  have happ : ∃ e, Update.application fs u = .error e := by
    rcases hini with hnone | ⟨rec, hrec, hbad⟩
    · refine ⟨.missingIni, ?_⟩
      unfold Update.application
      rw [hcache]
      dsimp only
      rw [hnone]
    · refine ⟨.badIni, ?_⟩
      unfold Update.application
      rw [hcache]
      dsimp only
      rw [hrec]
      dsimp only
      rw [hbad]
  obtain ⟨e, he⟩ := happ
  have hgc : getCall fs digest appPath u r = .error e := by
    unfold getCall
    dsimp only
    rw [he]
  refine ⟨e, ?_⟩
  unfold dispatcherCall
  rw [if_pos hget, hcur]
  dsimp only
  rw [hgc]

theorem missing_metadata_propagates_witness :
    getMatch ⟨"GET".toList, "/".toList, none⟩ = true ∧
    (scan (FSys.mk [⟨"b2g_update_1.mar".toList, 5, 10, []⟩] []) ⟨[], none⟩).currentUpdate =
      some (Update.ofMar ⟨"b2g_update_1.mar".toList, 5, 10, []⟩) ∧
    (Update.ofMar ⟨"b2g_update_1.mar".toList, 5, 10, []⟩).appCache = none ∧
    (∃ e, dispatcherCall (FSys.mk [⟨"b2g_update_1.mar".toList, 5, 10, []⟩] []) digest0
      "nightly".toList ⟨[], none⟩ ⟨"GET".toList, "/".toList, none⟩ = .error e) :=
  ⟨rfl, by decide, rfl,
    missing_metadata_propagates (FSys.mk [⟨"b2g_update_1.mar".toList, 5, 10, []⟩] [])
      digest0 "nightly".toList ⟨[], none⟩ ⟨"GET".toList, "/".toList, none⟩
      (Update.ofMar ⟨"b2g_update_1.mar".toList, 5, 10, []⟩) rfl (by decide) rfl
      (Or.inl (by decide))⟩

/-- C2 counterexample: in the end-to-end scenario the patch URL of the
returned manifest does not end in `.mar`: the code unconditionally adds
`build_id` and `version` to the query dict, so a query string always
follows the filename. -/
theorem application_scen (c : List Nat) :
    Update.application (fsScen c) (Update.ofMar (marScen c)) = .ok (appScen, curA c) :=
  rfl

theorem hash_scen (c : List Nat) (digest : List Nat → List Nat) :
    Update.hash (fsScen c) digest (curA c) =
      .ok (hexEncode (digest c), curB c digest, 1) :=
  rfl

theorem scan_scen (c : List Nat) :
    (scan (fsScen c) (stScen c)).currentUpdate = some (Update.ofMar (marScen c)) :=
  rfl

theorem getCall_scen (c : List Nat) (digest : List Nat → List Nat) (p : List Char)
    (r : Request) (hd : r.dogfoodId = none) :
    getCall (fsScen c) digest p (Update.ofMar (marScen c)) r =
      .ok (manifestBody "1.0".toList "20130101000000".toList p marName scen1Query
        (hexEncode (digest c)) "100".toList, curB c digest) := by
  unfold getCall
  rw [hd, application_scen]
  dsimp only
  rw [hash_scen]
  dsimp only
  rw [show (curB c digest).size = 100 from rfl]
  exact rfl

theorem dispatcher_scen (c : List Nat) (digest : List Nat → List Nat) (p : List Char)
    (r : Request) (hm : r.method = "GET".toList) (hd : r.dogfoodId = none) :
    (dispatcherCall (fsScen c) digest p (stScen c) r).map Prod.snd =
      .ok (.manifest (manifestBody "1.0".toList "20130101000000".toList p marName
        scen1Query (hexEncode (digest c)) "100".toList)) := by
  unfold dispatcherCall
  rw [if_pos (show getMatch r = true by simp [getMatch, hm]), scan_scen]
  dsimp only
  rw [getCall_scen c digest p r hd]
  exact rfl

theorem scenario1_url_not_mar_terminated :
    (dispatcherCall (fsScen (List.replicate 100 7)) digest0 "nightly".toList
        (stScen (List.replicate 100 7)) reqPlain).map Prod.snd =
      .ok (.manifest (manifestBody "1.0".toList "20130101000000".toList
        "nightly".toList marName scen1Query
        (hexEncode (digest0 (List.replicate 100 7))) "100".toList)) ∧
    marSfx.isSuffixOf (patchURL "nightly".toList marName scen1Query) = false :=
  ⟨dispatcher_scen (List.replicate 100 7) digest0 "nightly".toList reqPlain rfl rfl,
    by decide⟩

/-- C2 (amended): in the end-to-end scenario a GET with no query
parameters returns the manifest; the patch URL's path portion ends in
`/b2g_update_20130101000000.mar` and is followed by the always-present
query string starting with `?`; the body carries `size="100"` and a
128-character lowercase-hex SHA-512 hash value. -/
theorem scenario1_manifest (c : List Nat) (digest : List Nat → List Nat)
    (p : List Char) (hd : (digest c).length = 64) :
    (dispatcherCall (fsScen c) digest p (stScen c) reqPlain).map Prod.snd =
      .ok (.manifest (manifestBody "1.0".toList "20130101000000".toList p marName
        scen1Query (hexEncode (digest c)) "100".toList)) ∧
    scen1Query = '?' :: "build_id=20130101000000&amp;version=1.0".toList ∧
    patchURL p marName scen1Query =
      urlBase ++ p ++ "/b2g_update_20130101000000.mar".toList ++ scen1Query ∧
    (∃ a, manifestBody "1.0".toList "20130101000000".toList p marName scen1Query
        (hexEncode (digest c)) "100".toList =
      a ++ "\" hashFunction=\"SHA512\" hashValue=\"".toList ++ hexEncode (digest c) ++
        "\" size=\"".toList ++ "100".toList ++ "\"/>\n  </update>\n</updates>".toList) ∧
    (hexEncode (digest c)).length = 128 ∧
    (∀ ch ∈ hexEncode (digest c), ch ∈ hexDigits) := by
  refine ⟨dispatcher_scen c digest p reqPlain rfl rfl, rfl, rfl,
    ⟨"<?xml version=\"1.0\"?>\n<updates>\n  <update type=\"minor\" appVersion=\"".toList ++
      "1.0".toList ++ "\" version=\"".toList ++ "1.0".toList ++
      "\" extensionVersion=\"".toList ++ "1.0".toList ++ "\" buildID=\"".toList ++
      "20130101000000".toList ++
      "\" licenseURL=\"http://www.mozilla.com/test/sample-eula.html\" detailsURL=\"http://www.mozilla.com/test/sample-details.html\">\n    <patch type=\"complete\" URL=\"".toList ++
      patchURL p marName scen1Query, rfl⟩, ?_, hexEncode_mem _⟩
  rw [hexEncode_length, hd]

theorem scenario1_manifest_witness :
    (digest0 (List.replicate 100 7)).length = 64 ∧
    ((dispatcherCall (fsScen (List.replicate 100 7)) digest0 "nightly".toList
        (stScen (List.replicate 100 7)) reqPlain).map Prod.snd =
      .ok (.manifest (manifestBody "1.0".toList "20130101000000".toList
        "nightly".toList marName scen1Query
        (hexEncode (digest0 (List.replicate 100 7))) "100".toList)) ∧
    scen1Query = '?' :: "build_id=20130101000000&amp;version=1.0".toList ∧
    patchURL "nightly".toList marName scen1Query =
      urlBase ++ "nightly".toList ++ "/b2g_update_20130101000000.mar".toList ++
        scen1Query ∧
    (∃ a, manifestBody "1.0".toList "20130101000000".toList "nightly".toList marName
        scen1Query (hexEncode (digest0 (List.replicate 100 7))) "100".toList =
      a ++ "\" hashFunction=\"SHA512\" hashValue=\"".toList ++
        hexEncode (digest0 (List.replicate 100 7)) ++
        "\" size=\"".toList ++ "100".toList ++ "\"/>\n  </update>\n</updates>".toList) ∧
    (hexEncode (digest0 (List.replicate 100 7))).length = 128 ∧
    (∀ ch ∈ hexEncode (digest0 (List.replicate 100 7)), ch ∈ hexDigits)) :=
  ⟨by decide,
    scenario1_manifest (List.replicate 100 7) digest0 "nightly".toList (by decide)⟩

theorem getCall_dog (c : List Nat) (digest : List Nat → List Nat) (p : List Char)
    (ch : Char) (vs : List Char) :
    getCall (fsScen c) digest p (Update.ofMar (marScen c))
        ⟨"GET".toList, "/".toList, some (ch :: vs)⟩ =
      .ok (manifestBody "1.0".toList "20130101000000".toList p marName
        ('?' :: ("dogfooding_prerelease_id=".toList ++ (ch :: vs) ++ "&amp;".toList ++
          "build_id=20130101000000&amp;version=1.0".toList))
        (hexEncode (digest c)) "100".toList, curB c digest) := by
  unfold getCall
  rw [application_scen]
  dsimp only
  rw [hash_scen]
  dsimp only
  rw [show (curB c digest).size = 100 from rfl]
  exact rfl

theorem dispatcher_dog (c : List Nat) (digest : List Nat → List Nat) (p : List Char)
    (ch : Char) (vs : List Char) :
    (dispatcherCall (fsScen c) digest p (stScen c)
        ⟨"GET".toList, "/".toList, some (ch :: vs)⟩).map Prod.snd =
      .ok (.manifest (manifestBody "1.0".toList "20130101000000".toList p marName
        ('?' :: ("dogfooding_prerelease_id=".toList ++ (ch :: vs) ++ "&amp;".toList ++
          "build_id=20130101000000&amp;version=1.0".toList))
        (hexEncode (digest c)) "100".toList)) := by
  unfold dispatcherCall
  rw [if_pos (show getMatch ⟨"GET".toList, "/".toList, some (ch :: vs)⟩ = true from rfl),
    scan_scen]
  dsimp only
  rw [getCall_dog]
  exact rfl

/-- C6: when the request carries a non-empty `dogfood_id` value, the
manifest's download URL has `?dogfooding_prerelease_id=<value>` appended
directly after the filename (followed by the always-present
`build_id`/`version` parameters); the value is spliced through verbatim,
whatever characters it contains — no validation is applied. -/
theorem dogfood_passthrough (c : List Nat) (digest : List Nat → List Nat)
    (p : List Char) (ch : Char) (vs : List Char) :
    (dispatcherCall (fsScen c) digest p (stScen c)
        ⟨"GET".toList, "/".toList, some (ch :: vs)⟩).map Prod.snd =
      .ok (.manifest (manifestBody "1.0".toList "20130101000000".toList p marName
        ('?' :: ("dogfooding_prerelease_id=".toList ++ (ch :: vs) ++ "&amp;".toList ++
          "build_id=20130101000000&amp;version=1.0".toList))
        (hexEncode (digest c)) "100".toList)) ∧
    patchURL p marName
        ('?' :: ("dogfooding_prerelease_id=".toList ++ (ch :: vs) ++ "&amp;".toList ++
          "build_id=20130101000000&amp;version=1.0".toList)) =
      urlBase ++ p ++ "/b2g_update_20130101000000.mar".toList ++
        ('?' :: ("dogfooding_prerelease_id=".toList ++ (ch :: vs) ++ "&amp;".toList ++
          "build_id=20130101000000&amp;version=1.0".toList)) :=
  ⟨dispatcher_dog c digest p ch vs, rfl⟩

/-- C3 counterexample: a GET whose path is not the server root still
yields the manifest — the handler predicate checks only the method, so an
"unsupported path" does not produce 404. -/
theorem get_wrong_path_yields_manifest :
    (Request.mk "GET".toList "/definitely/not/root".toList none).path ≠ "/".toList ∧
    (dispatcherCall (fsScen (List.replicate 100 7)) digest0 "nightly".toList
        (stScen (List.replicate 100 7))
        (Request.mk "GET".toList "/definitely/not/root".toList none)).map Prod.snd =
      .ok (.manifest (manifestBody "1.0".toList "20130101000000".toList
        "nightly".toList marName scen1Query
        (hexEncode (digest0 (List.replicate 100 7))) "100".toList)) :=
  ⟨by decide,
    dispatcher_scen (List.replicate 100 7) digest0 "nightly".toList
      (Request.mk "GET".toList "/definitely/not/root".toList none) rfl rfl⟩

/-- C3 (amended): the response is `404 Not Found` exactly when the
request's method is not GET; the request path is never consulted — a GET
to any path never yields 404 (it yields the manifest or a propagated
processing error). -/
theorem notFound_iff_not_get (fs : FSys) (digest : List Nat → List Nat)
    (appPath : List Char) (st : DState) (r : Request) :
    (dispatcherCall fs digest appPath st r).map Prod.snd =
      .ok HttpResponse.notFound ↔ getMatch r = false := by
  unfold dispatcherCall
  cases hgm : getMatch r with
  | false =>
    rw [if_neg (by simp)]
    simp [Except.map]
  | true =>
    rw [if_pos rfl]
    simp only [Bool.true_eq_false, iff_false]
    cases hcu : (scan fs st).currentUpdate with
    | none => simp [Except.map]
    | some cur =>
      dsimp only
      cases hgc : getCall fs digest appPath cur r with
      | error e => simp [Except.map]
      | ok pr =>
        obtain ⟨body, cur2⟩ := pr
        simp [Except.map]

end Dogdish
